import Mathlib

/-!
Shallow embedding of the dichroic-signal stream processor of
`src/id4_common/callbacks/dichro_stream.py` (class `DichroStream`, class
`Settings`, class `DichroDevice`), together with theorems checking the
natural-language specification against it.

Numeric values (numpy floats in the source) are modelled by an arbitrary
field `R`; the natural logarithm used by the reducer is passed in as an
abstract function `rlog : R → R`, so that every definition stays executable
(witnesses instantiate `R := ℚ`).  numpy NaN, produced only for an absent
positioner, is modelled by `Option R` with `none` standing for NaN.
-/

namespace DichroModel

/-- Python substring test helper: does the pattern occur at the head. -/
def startsWithL : List Char → List Char → Bool
  | [], _ => true
  | _ :: _, [] => false
  | p :: ps, c :: cs => p == c && startsWithL ps cs

/-- Python substring test helper: does the pattern occur anywhere. -/
def hasSub (pat : List Char) : List Char → Bool
  | [] => startsWithL pat []
  | c :: cs => startsWithL pat (c :: cs) || hasSub pat cs

/-- Python `pat in s` on strings: substring containment. -/
def strIn (pat s : String) : Bool := hasSub pat.data s.data

/-- A raw bluesky event document: the descriptor id it refers to and its
per-channel data readings (`doc["descriptor"]`, `doc["data"]`). -/
structure RawEvent (R : Type) where
  descriptor : String
  data : String → R

/-- The part of a descriptor document the stream consults: the stream name
(`descriptor["name"]`) and the channel names of its schema
(`descriptor["data_keys"]`). -/
structure Descriptor where
  name : String
  data_keys : List String

/-- The `Settings` class: per-run configuration of the dichro stream. -/
@[ext]
structure Settings (R : Type) where
  positioner1 : Option String
  positioner2 : Option String
  monitor : String
  detector : String
  transmission : Bool
  pattern : List R

/-- `Settings.get_keys`: the role-to-channel-name map, keeping only the
roles whose value is not `None`, in declaration order. -/
def Settings.get_keys {R : Type} (s : Settings R) : List (String × String) :=
  (match s.positioner1 with | some v => [("positioner1", v)] | none => []) ++
  (match s.positioner2 with | some v => [("positioner2", v)] | none => []) ++
  [("monitor", s.monitor), ("detector", s.detector)]

/-- Python dict assignment `d[k] = v` on an association list: replace the
value at the first occurrence of the key, else append at the end. -/
def setKey {R : Type} : List (String × R) → String → R → List (String × R)
  | [], k, v => [(k, v)]
  | p :: rest, k, v =>
    if p.1 = k then (k, v) :: rest else p :: setKey rest k v

/-- Python dict lookup `d[k]` on an association list. -/
def getKey? {R : Type} : List (String × R) → String → Option R
  | [], _ => none
  | p :: rest, k => if p.1 = k then some p.2 else getKey? rest k

/-- numpy `mean` of a one-dimensional array. -/
def meanR {R : Type} [Field R] (l : List R) : R := l.sum / (l.length : R)

/-- Accumulator for the `for key, value in self.data_keys.items()` loop of
`process_xmcd`: the processed-event dict under construction and the local
arrays `_mon` and `_det`. -/
structure MatchAcc (R : Type) where
  processed : List (String × R)
  mon : List R
  det : List R

/-- Result of one window reduction: the processed event dict, the 4-tuple
put to the `dichro` device (positioner slots are `Option R`, `none` = NaN),
and the descriptor id of the window. -/
structure Reduced (R : Type) where
  processed : List (String × R)
  out : Option R × Option R × R × R
  descriptor : String

instance {R : Type} [Field R] : Inhabited (Reduced R) :=
  ⟨⟨[], (none, none, 0, 0), ""⟩⟩

/-- Building one slot of `dichro_out`: `processed_evt[pos]` when the
positioner is configured (KeyError if the dict misses it), NaN otherwise. -/
def tupleEntry {R : Type} (l : List (String × R)) :
    Option String → Except String (Option R)
  | some p =>
    match getKey? l p with
    | some v => .ok (some v)
    | none => .error "KeyError"
  | none => .ok none

/-- Python dict lookup that raises KeyError on a missing key. -/
def keyOrErr {R : Type} (l : List (String × R)) (k : String) :
    Except String R :=
  match getKey? l k with
  | some v => .ok v
  | none => .error "KeyError"

/-- The body of the `for key, value in self.data_keys.items()` loop in the
matching-schema branch of `process_xmcd`. -/
def matchStep {R : Type} [Field R] (cache : List (RawEvent R))
    (acc : MatchAcc R) (kv : String × String) : MatchAcc R :=
  if strIn "positioner1" kv.1 then
    { acc with processed := setKey acc.processed kv.2 (meanR (cache.map (fun evt => evt.data kv.2))) }
  else if strIn "positioner2" kv.1 then
    { acc with processed := setKey acc.processed kv.2 (meanR (cache.map (fun evt => evt.data kv.2))) }
  else if strIn "monitor" kv.1 then
    { acc with mon := cache.map (fun evt => evt.data kv.2) }
  else if strIn "detector" kv.1 then
    { acc with det := cache.map (fun evt => evt.data kv.2) }
  else acc

/-- The whole matching-schema loop of `process_xmcd`. -/
def matchAcc {R : Type} [Field R] (cache : List (RawEvent R))
    (dataKeys : List (String × String)) : MatchAcc R :=
  dataKeys.foldl (matchStep cache) ⟨[], [], []⟩

/-- The mismatch-branch loop of `process_xmcd`: zero every configured
positioner field. -/
def degradedEntries {R : Type} [Field R]
    (dataKeys : List (String × String)) : List (String × R) :=
  dataKeys.foldl
    (fun acc kv => if strIn "positioner" kv.1 then setKey acc kv.2 0 else acc) []

/-- The processed-event dict built by the matching-schema branch of
`process_xmcd`: positioners averaged, then `xas` and `xmcd` computed from
the `_mon` and `_det` arrays the loop collected. -/
def matchBranchDict {R : Type} [Field R] (rlog : R → R) (s : Settings R)
    (dataKeys : List (String × String)) (cache : List (RawEvent R)) :
    List (String × R) :=
  let acc := matchAcc cache dataKeys
  let xasArr :=
    if s.transmission then
      List.zipWith (fun m d => rlog (m / d)) acc.mon acc.det
    else
      List.zipWith (fun m d => d / m) acc.mon acc.det
  setKey (setKey acc.processed "xas" (meanR xasArr)) "xmcd"
    (meanR (List.zipWith (fun a p => a * p) xasArr s.pattern) * 2)

/-- The processed-event dict built by the mismatch branch of
`process_xmcd`: zeroed positioner fields, `xas = 0`, `xmcd = 0`. -/
def degradedDict {R : Type} [Field R] (dataKeys : List (String × String)) :
    List (String × R) :=
  setKey (setKey (degradedEntries dataKeys) "xas" 0) "xmcd" 0

/-- Assembly of the `dichro_out` 4-tuple from the processed-event dict:
one slot per positioner role (NaN when unset), then `xas` and `xmcd`. -/
def dichroOut {R : Type} (processed_evt : List (String × R)) (s : Settings R) :
    Except String (Option R × Option R × R × R) := do
  let p1 ← tupleEntry processed_evt s.positioner1
  let p2 ← tupleEntry processed_evt s.positioner2
  let xasv ← keyOrErr processed_evt "xas"
  let xmcdv ← keyOrErr processed_evt "xmcd"
  pure (p1, p2, xasv, xmcdv)

/-- The nested function `process_xmcd` of `DichroStream.start`, as one pure
function of the captured state it reads (`self.raw_descriptors`,
`self.data_keys`, `self.settings`) and the window `cache`.  A raised Python
exception is an `Except.error`; the `dichro.put` side effect is recorded in
the `out` field of the result. -/
def process_xmcd {R : Type} [Field R] (rlog : R → R)
    (rd : String → Descriptor) (dataKeys : List (String × String))
    (s : Settings R) (cache : List (RawEvent R)) :
    Except String (Reduced R) :=
  match cache with
  | [] => .error "IndexError"
  | e0 :: _ =>
    let desc_id := e0.descriptor
    if cache.all (fun evt => evt.descriptor == desc_id) then
      let schema := (rd desc_id).data_keys
      let processed_evt :=
        if (dataKeys.map Prod.snd).all (fun key => schema.contains key) then
          matchBranchDict rlog s dataKeys cache
        else
          degradedDict dataKeys
      match dichroOut processed_evt s with
      | .ok out => .ok { processed := processed_evt, out := out, descriptor := desc_id }
      | .error msg => .error msg
    else
      .error "The events in this bundle are from different configurations!"

/-- State of the `DichroStream` object.  The `processor` field models the
streamz partition node: it holds the window size captured at run start and
is `none` when no run is active; `buffer` is the partition node's internal
buffer; `n` is the scratch attribute `self.n`; `data_keys` is the channel
map captured at run start. -/
structure DSState (R : Type) where
  processor : Option Nat
  buffer : List (RawEvent R)
  n : Nat
  data_keys : Option (List (String × String))
  settings : Settings R

/-- `DichroStream.start`: fix the window size from the pattern length,
create a fresh (empty) partition node, and capture the channel map. -/
def DichroStream.start {R : Type} (st : DSState R) : DSState R :=
  { st with
    processor := some st.settings.pattern.length,
    buffer := [],
    n := st.settings.pattern.length,
    data_keys := some st.settings.get_keys }

/-- `DichroStream.event`: ignore events of non-primary streams; otherwise
feed the event into the partition node, and when the buffer reaches the
window size reduce it and emit the result.  The returned list holds the
Derived Events emitted by this call. -/
def DichroStream.event {R : Type} [Field R] (rlog : R → R)
    (rd : String → Descriptor) (st : DSState R) (doc : RawEvent R) :
    Except String (DSState R × List (Reduced R)) :=
  if (rd doc.descriptor).name == "primary" then
    match st.processor with
    | none => .error "AttributeError"
    | some n =>
      let buf := st.buffer ++ [doc]
      if buf.length = n then
        match st.data_keys with
        | none => .error "TypeError"
        | some dk =>
          match process_xmcd rlog rd dk st.settings buf with
          | .ok r => .ok ({ st with buffer := [] }, [r])
          | .error msg => .error msg
      else
        .ok ({ st with buffer := buf }, [])
  else
    .ok (st, [])

/-- `DichroStream.stop`: tear the stream nodes down (discarding the
partition buffer and its captured window size), clear the captured channel
map, and clear both positioner references in `Settings`. -/
def DichroStream.stop {R : Type} (st : DSState R) : DSState R :=
  { st with
    processor := none,
    buffer := [],
    data_keys := none,
    settings := { st.settings with positioner1 := none, positioner2 := none } }

/-- Deliver a list of event documents to `DichroStream.event` one at a
time, collecting all emitted Derived Events; a raised exception aborts. -/
def runEvents {R : Type} [Field R] (rlog : R → R) (rd : String → Descriptor) :
    DSState R → List (RawEvent R) → Except String (DSState R × List (Reduced R))
  | st, [] => .ok (st, [])
  | st, e :: rest =>
    match DichroStream.event rlog rd st e with
    | .error msg => .error msg
    | .ok (st1, o1) =>
      match runEvents rlog rd st1 rest with
      | .error msg => .error msg
      | .ok (st2, o2) => .ok (st2, o1 ++ o2)

/-- The contiguous, non-overlapping full windows of size `n` of a list, in
order; a trailing group shorter than `n` is not included. -/
def fullChunks {α : Type} (n : Nat) (l : List α) : List (List α) :=
  if _h : n ≠ 0 ∧ n ≤ l.length then
    l.take n :: fullChunks n (l.drop n)
  else
    []
termination_by l.length
decreasing_by
  simp only [List.length_drop]
  omega

/-- The trailing part of a list left over after removing all full windows
of size `n`. -/
def fullRem {α : Type} (n : Nat) (l : List α) : List α :=
  if _h : n ≠ 0 ∧ n ≤ l.length then
    fullRem n (l.drop n)
  else
    l
termination_by l.length
decreasing_by
  simp only [List.length_drop]
  omega

/-- The Derived Event a successful reduction of a window yields (used to
state what a run emits; windows that fail to reduce never reach this). -/
def windowReduce {R : Type} [Field R] (rlog : R → R)
    (rd : String → Descriptor) (dataKeys : List (String × String))
    (s : Settings R) (w : List (RawEvent R)) : Reduced R :=
  match process_xmcd rlog rd dataKeys s w with
  | .ok r => r
  | .error _ => default

/-- The `DichroDevice` sink: its registered callbacks, as
(event type, callback id) pairs in registration order. -/
structure DichroDevice where
  callbacks : List (String × Nat)

/-- `DichroDevice.subscribe`: register the callback under the `acq_done`
event type, whatever event type the caller passed. -/
def DichroDevice.subscribe (d : DichroDevice) (cb : Nat)
    (_event_type : Option String) (_run : Bool) : DichroDevice :=
  { d with callbacks := d.callbacks ++ [("acq_done", cb)] }

/-- The ophyd `_run_subs` helper: the callbacks registered under the given
subscription type, in registration order. -/
def DichroDevice.runSubs (d : DichroDevice) (sub_type : String) : List Nat :=
  (d.callbacks.filter (fun p => p.1 == sub_type)).map Prod.snd

/-- `DichroDevice.put`: store the value, then notify every `acq_done`
subscriber; the returned list is the sequence of (callback, value)
notifications, in the order they are invoked. -/
def DichroDevice.put {R : Type} (d : DichroDevice)
    (v : Option R × Option R × R × R) :
    List (Nat × (Option R × Option R × R × R)) :=
  (d.runSubs "acq_done").map (fun cb => (cb, v))

/-- A device built by a sequence of `subscribe` calls on a fresh device. -/
def mkDevice (regs : List (Nat × Option String × Bool)) : DichroDevice :=
  regs.foldl (fun d g => d.subscribe g.1 g.2.1 g.2.2) ⟨[]⟩

/-- Helper for stating what the loops build: set the entry of one
configured positioner, or leave the dict alone when it is absent. -/
def posSet {R : Type} (o : Option String) (f : String → R)
    (l : List (String × R)) : List (String × R) :=
  match o with
  | some p => setKey l p (f p)
  | none => l

/-- Spec formula: the monitor readings `M` of a window, in window order. -/
def monitorArr {R : Type} (s : Settings R) (cache : List (RawEvent R)) :
    List R :=
  cache.map fun e => e.data s.monitor

/-- Spec formula: the detector readings `D` of a window, in window order. -/
def detectorArr {R : Type} (s : Settings R) (cache : List (RawEvent R)) :
    List R :=
  cache.map fun e => e.data s.detector

/-- Spec formula: per-event absorption, `A[i] = ln(M[i]/D[i])` when
`settings.transmission` holds and `A[i] = D[i]/M[i]` otherwise. -/
def absorptionArr {R : Type} [Field R] (rlog : R → R) (s : Settings R)
    (cache : List (RawEvent R)) : List R :=
  if s.transmission then
    List.zipWith (fun m d => rlog (m / d)) (monitorArr s cache) (detectorArr s cache)
  else
    List.zipWith (fun m d => d / m) (monitorArr s cache) (detectorArr s cache)

/-- Spec formula: `xas = mean(A)`. -/
def xasVal {R : Type} [Field R] (rlog : R → R) (s : Settings R)
    (cache : List (RawEvent R)) : R :=
  meanR (absorptionArr rlog s cache)

/-- Spec formula: `xmcd = mean(A[i] * pattern[i]) * 2`. -/
def xmcdVal {R : Type} [Field R] (rlog : R → R) (s : Settings R)
    (cache : List (RawEvent R)) : R :=
  meanR (List.zipWith (fun a p => a * p) (absorptionArr rlog s cache) s.pattern) * 2

/-- The processed-event dict the matching-schema branch builds. -/
def matchProcessed {R : Type} [Field R] (rlog : R → R) (s : Settings R)
    (cache : List (RawEvent R)) : List (String × R) :=
  setKey
    (setKey
      (posSet s.positioner2 (fun p => meanR (cache.map fun e => e.data p))
        (posSet s.positioner1 (fun p => meanR (cache.map fun e => e.data p)) []))
      "xas" (xasVal rlog s cache))
    "xmcd" (xmcdVal rlog s cache)

/-- The processed-event dict the mismatch branch builds. -/
def degradedProcessed {R : Type} [Field R] (s : Settings R) :
    List (String × R) :=
  setKey
    (setKey (posSet s.positioner2 (fun _ => 0) (posSet s.positioner1 (fun _ => 0) []))
      "xas" 0)
    "xmcd" 0

/-- The state of the stream during an active run configured by `s`, with
`b` the events buffered so far in the current window. -/
def runState {R : Type} (s : Settings R) (b : List (RawEvent R)) : DSState R :=
  { processor := some s.pattern.length, buffer := b, n := s.pattern.length,
    data_keys := some s.get_keys, settings := s }

/-! Concrete inputs used by the witness and counterexample theorems.  The
value field is `ℚ` and the logarithm is interpreted by the identity
function, which the parametric theorems allow. -/

/-- Witness interpretation of the logarithm. -/
def wLog : ℚ → ℚ := fun x => x

/-- Witness descriptor registry: every descriptor id resolves to a primary
stream whose schema holds the four channels the witness settings use. -/
def wRd : String → Descriptor :=
  fun _ => ⟨"primary", ["energy", "theta", "m0", "d0"]⟩

/-- Descriptor registry with one auxiliary (non-primary) stream. -/
def wRdMix : String → Descriptor :=
  fun d => if d = "base" then ⟨"baseline", ["energy"]⟩
           else ⟨"primary", ["energy", "theta", "m0", "d0"]⟩

/-- Witness settings: one positioner, transmission mode, window size 2. -/
def wS : Settings ℚ :=
  ⟨some "energy", none, "m0", "d0", true, [1, -1]⟩

/-- Witness settings whose monitor channel is missing from the schema. -/
def wS4 : Settings ℚ :=
  ⟨some "energy", none, "mX", "d0", true, [1, -1]⟩

/-- Witness per-event readings. -/
def wData : String → ℚ :=
  fun k => if k = "m0" then 4 else if k = "d0" then 2 else 1

/-- A primary-stream witness event. -/
def wE1 : RawEvent ℚ := ⟨"d1", wData⟩

/-- A witness event on the auxiliary stream of `wRdMix`. -/
def wEbase : RawEvent ℚ := ⟨"base", wData⟩

/-- A witness stream state before any run is started. -/
def wIdle : DSState ℚ := ⟨none, [], 4, none, wS⟩

/-- A second witness stream state, agreeing with `wIdle` on the persistent
settings fields but differing everywhere else. -/
def wIdle2 : DSState ℚ :=
  ⟨some 7, [wE1], 9, some [("monitor", "m0")],
   ⟨none, some "theta", "m0", "d0", true, [1, -1]⟩⟩

/-- Counterexample event with descriptor id `dA`. -/
def cE1 : RawEvent ℚ := ⟨"dA", fun _ => 1⟩

/-- Counterexample event with descriptor id `dB`. -/
def cE2 : RawEvent ℚ := ⟨"dB", fun _ => 1⟩

/-! Evaluation facts for the Python substring tests on the four role
names, and the association-list (dict) lemmas the claim proofs use. -/

@[simp] theorem strIn_p1_p1 : strIn "positioner1" "positioner1" = true := by decide

@[simp] theorem strIn_p1_p2 : strIn "positioner1" "positioner2" = false := by decide

@[simp] theorem strIn_p2_p2 : strIn "positioner2" "positioner2" = true := by decide

@[simp] theorem strIn_p1_mon : strIn "positioner1" "monitor" = false := by decide

@[simp] theorem strIn_p2_mon : strIn "positioner2" "monitor" = false := by decide

@[simp] theorem strIn_mon_mon : strIn "monitor" "monitor" = true := by decide

@[simp] theorem strIn_p1_det : strIn "positioner1" "detector" = false := by decide

@[simp] theorem strIn_p2_det : strIn "positioner2" "detector" = false := by decide

@[simp] theorem strIn_mon_det : strIn "monitor" "detector" = false := by decide

@[simp] theorem strIn_det_det : strIn "detector" "detector" = true := by decide

@[simp] theorem strIn_pos_p1 : strIn "positioner" "positioner1" = true := by decide

@[simp] theorem strIn_pos_p2 : strIn "positioner" "positioner2" = true := by decide

@[simp] theorem strIn_pos_mon : strIn "positioner" "monitor" = false := by decide

@[simp] theorem strIn_pos_det : strIn "positioner" "detector" = false := by decide

theorem getKey?_setKey_self {R : Type} (l : List (String × R)) (k : String) (v : R) :
    getKey? (setKey l k v) k = some v := by
  induction l with
  | nil => simp [setKey, getKey?]
  | cons p rest ih =>
    by_cases h : p.1 = k <;> simp [setKey, getKey?, h, ih]

theorem getKey?_setKey_of_ne {R : Type} {l : List (String × R)} {k k' : String}
    (v : R) (h : k' ≠ k) : getKey? (setKey l k v) k' = getKey? l k' := by
  induction l with
  | nil => simp [setKey, getKey?, Ne.symm h]
  | cons p rest ih =>
    by_cases hp : p.1 = k
    · have hk' : ¬ p.1 = k' := by rw [hp]; exact Ne.symm h
      simp [setKey, getKey?, hp, hk', Ne.symm h]
    · simp [setKey, getKey?, hp, ih]

theorem isSome_getKey?_setKey {R : Type} (l : List (String × R)) (k : String)
    (v : R) (k' : String) (h : (getKey? l k').isSome) :
    (getKey? (setKey l k v) k').isSome := by
  by_cases hk : k' = k
  · subst hk; simp [getKey?_setKey_self]
  · rwa [getKey?_setKey_of_ne v hk]

theorem setKey_zero_values {R : Type} [Field R] (l : List (String × R))
    (k : String) (hz : ∀ q ∈ l, q.2 = (0 : R)) :
    ∀ q ∈ setKey l k (0 : R), q.2 = 0 := by
  induction l with
  | nil => simp [setKey]
  | cons p rest ih =>
    by_cases hp : p.1 = k
    · intro q hq
      simp only [setKey, hp, if_pos rfl] at hq
      rcases List.mem_cons.1 hq with h | h
      · rw [h]
      · exact hz q (List.mem_cons_of_mem _ h)
    · intro q hq
      simp only [setKey, hp, if_neg hp] at hq
      rcases List.mem_cons.1 hq with h | h
      · rw [h]; exact hz p (List.mem_cons_self _ _)
      · exact ih (fun q hq => hz q (List.mem_cons_of_mem _ hq)) q h

theorem getKey?_zero {R : Type} [Field R] (l : List (String × R)) (k : String)
    (hz : ∀ q ∈ l, q.2 = (0 : R)) (hs : (getKey? l k).isSome) :
    getKey? l k = some (0 : R) := by
  induction l with
  | nil => simp [getKey?] at hs
  | cons p rest ih =>
    by_cases hp : p.1 = k
    · simp only [getKey?, if_pos hp]
      exact congrArg some (hz p (List.mem_cons_self _ _))
    · simp only [getKey?, if_neg hp] at hs ⊢
      exact ih (fun q hq => hz q (List.mem_cons_of_mem _ hq)) hs

theorem isSome_getKey?_posSet {R : Type} (o : Option String) (f : String → R)
    (l : List (String × R)) (k : String) (h : (getKey? l k).isSome) :
    (getKey? (posSet o f l) k).isSome := by
  cases o with
  | none => exact h
  | some p => exact isSome_getKey?_setKey l p (f p) k h

theorem isSome_getKey?_posSet_self {R : Type} (f : String → R)
    (l : List (String × R)) (p : String) :
    (getKey? (posSet (some p) f l) p).isSome := by
  simp [posSet, getKey?_setKey_self]

theorem posSet_zero_values {R : Type} [Field R] (o : Option String)
    (l : List (String × R)) (hz : ∀ q ∈ l, q.2 = (0 : R)) :
    ∀ q ∈ posSet o (fun _ => (0 : R)) l, q.2 = 0 := by
  cases o with
  | none => exact hz
  | some p => exact setKey_zero_values l p hz

theorem matchAcc_get_keys {R : Type} [Field R] (s : Settings R)
    (cache : List (RawEvent R)) :
    matchAcc cache s.get_keys =
      ⟨posSet s.positioner2 (fun p => meanR (cache.map fun e => e.data p))
         (posSet s.positioner1 (fun p => meanR (cache.map fun e => e.data p)) []),
       cache.map fun e => e.data s.monitor,
       cache.map fun e => e.data s.detector⟩ := by
  cases h1 : s.positioner1 <;> cases h2 : s.positioner2 <;>
    simp [matchAcc, Settings.get_keys, h1, h2, matchStep, posSet]

theorem degradedEntries_get_keys {R : Type} [Field R] (s : Settings R) :
    degradedEntries (R := R) s.get_keys =
      posSet s.positioner2 (fun _ => 0) (posSet s.positioner1 (fun _ => 0) []) := by
  cases h1 : s.positioner1 <;> cases h2 : s.positioner2 <;>
    simp [degradedEntries, Settings.get_keys, h1, h2, posSet]

theorem all_desc_beq {R : Type} {cache : List (RawEvent R)} {d0 : String}
    (hdesc : ∀ e ∈ cache, e.descriptor = d0) :
    (cache.all fun evt => evt.descriptor == d0) = true := by
  simp only [List.all_eq_true, beq_iff_eq]
  exact hdesc

theorem all_keys_contains {dk : List (String × String)} {schema : List String}
    (h : ∀ p ∈ dk, p.2 ∈ schema) :
    ((dk.map Prod.snd).all fun key => schema.contains key) = true := by
  simp only [List.all_eq_true, List.mem_map]
  rintro key ⟨p, hp, rfl⟩
  exact List.elem_eq_true_of_mem (h p hp)

theorem matchBranchDict_get_keys {R : Type} [Field R] (rlog : R → R)
    (s : Settings R) (cache : List (RawEvent R)) :
    matchBranchDict rlog s s.get_keys cache = matchProcessed rlog s cache := by
  simp only [matchBranchDict, matchAcc_get_keys]
  rfl

theorem degradedDict_get_keys {R : Type} [Field R] (s : Settings R) :
    degradedDict (R := R) s.get_keys = degradedProcessed s := by
  simp only [degradedDict, degradedEntries_get_keys]
  rfl

theorem dichroOut_eval {R : Type} (l : List (String × R)) (s : Settings R)
    (w1 w2 : Option R) (x y : R)
    (h1 : tupleEntry l s.positioner1 = .ok w1)
    (h2 : tupleEntry l s.positioner2 = .ok w2)
    (hx : getKey? l "xas" = some x) (hy : getKey? l "xmcd" = some y) :
    dichroOut l s = .ok (w1, w2, x, y) := by
  simp [dichroOut, h1, h2, keyOrErr, hx, hy, Bind.bind, Except.bind, pure,
    Except.pure]

theorem process_xmcd_match {R : Type} [Field R] (rlog : R → R)
    (rd : String → Descriptor) (s : Settings R) (e0 : RawEvent R)
    (rest : List (RawEvent R))
    (hdesc : ∀ e ∈ e0 :: rest, e.descriptor = e0.descriptor)
    (hm : ((s.get_keys.map Prod.snd).all
            fun key => ((rd e0.descriptor).data_keys).contains key) = true) :
    ∃ p1 p2 : Option R,
      process_xmcd rlog rd s.get_keys s (e0 :: rest) =
        .ok ⟨matchProcessed rlog s (e0 :: rest),
             (p1, p2, xasVal rlog s (e0 :: rest), xmcdVal rlog s (e0 :: rest)),
             e0.descriptor⟩ ∧
      (s.positioner1 = none → p1 = none) ∧
      (s.positioner2 = none → p2 = none) ∧
      (∀ p, s.positioner1 = some p → p1.isSome) ∧
      (∀ p, s.positioner2 = some p → p2.isSome) := by
  have hall : ((e0 :: rest).all fun evt => evt.descriptor == e0.descriptor) = true :=
    all_desc_beq hdesc
  have hxas : getKey? (matchProcessed rlog s (e0 :: rest)) "xas" =
      some (xasVal rlog s (e0 :: rest)) := by
    unfold matchProcessed
    rw [getKey?_setKey_of_ne _ (by decide), getKey?_setKey_self]
  have hxmcd : getKey? (matchProcessed rlog s (e0 :: rest)) "xmcd" =
      some (xmcdVal rlog s (e0 :: rest)) := by
    unfold matchProcessed
    rw [getKey?_setKey_self]
  have hp1 : ∃ w1, tupleEntry (matchProcessed rlog s (e0 :: rest)) s.positioner1 = .ok w1 ∧
      (s.positioner1 = none → w1 = none) ∧ (∀ p, s.positioner1 = some p → w1.isSome) := by
    cases h1 : s.positioner1 with
    | none => exact ⟨none, rfl, fun _ => rfl, by simp⟩
    | some p =>
      have hs : (getKey? (matchProcessed rlog s (e0 :: rest)) p).isSome := by
        unfold matchProcessed
        apply isSome_getKey?_setKey
        apply isSome_getKey?_setKey
        apply isSome_getKey?_posSet
        rw [h1]
        exact isSome_getKey?_posSet_self _ _ _
      obtain ⟨v, hv⟩ := Option.isSome_iff_exists.1 hs
      exact ⟨some v, by simp [tupleEntry, hv], by simp, fun _ _ => rfl⟩
  have hp2 : ∃ w2, tupleEntry (matchProcessed rlog s (e0 :: rest)) s.positioner2 = .ok w2 ∧
      (s.positioner2 = none → w2 = none) ∧ (∀ p, s.positioner2 = some p → w2.isSome) := by
    cases h2 : s.positioner2 with
    | none => exact ⟨none, rfl, fun _ => rfl, by simp⟩
    | some q =>
      have hs : (getKey? (matchProcessed rlog s (e0 :: rest)) q).isSome := by
        unfold matchProcessed
        apply isSome_getKey?_setKey
        apply isSome_getKey?_setKey
        rw [h2]
        exact isSome_getKey?_posSet_self _ _ _
      obtain ⟨v, hv⟩ := Option.isSome_iff_exists.1 hs
      exact ⟨some v, by simp [tupleEntry, hv], by simp, fun _ _ => rfl⟩
  obtain ⟨w1, hw1, hw1n, hw1s⟩ := hp1
  obtain ⟨w2, hw2, hw2n, hw2s⟩ := hp2
  refine ⟨w1, w2, ?_, hw1n, hw2n, hw1s, hw2s⟩
  have hout : dichroOut (matchProcessed rlog s (e0 :: rest)) s =
      .ok (w1, w2, xasVal rlog s (e0 :: rest), xmcdVal rlog s (e0 :: rest)) :=
    dichroOut_eval _ _ _ _ _ _ hw1 hw2 hxas hxmcd
  simp only [process_xmcd]
  rw [if_pos hall, if_pos hm, matchBranchDict_get_keys, hout]

theorem process_xmcd_mismatch {R : Type} [Field R] (rlog : R → R)
    (rd : String → Descriptor) (s : Settings R) (e0 : RawEvent R)
    (rest : List (RawEvent R))
    (hdesc : ∀ e ∈ e0 :: rest, e.descriptor = e0.descriptor)
    (hm : ¬ ((s.get_keys.map Prod.snd).all
            fun key => ((rd e0.descriptor).data_keys).contains key) = true) :
    process_xmcd rlog rd s.get_keys s (e0 :: rest) =
      .ok ⟨degradedProcessed s,
           (s.positioner1.map fun _ => (0 : R),
            s.positioner2.map fun _ => (0 : R), 0, 0),
           e0.descriptor⟩ := by
  have hall : ((e0 :: rest).all fun evt => evt.descriptor == e0.descriptor) = true :=
    all_desc_beq hdesc
  have hzero : ∀ q ∈ degradedProcessed (R := R) s, q.2 = 0 := by
    unfold degradedProcessed
    apply setKey_zero_values
    apply setKey_zero_values
    apply posSet_zero_values
    apply posSet_zero_values
    simp
  have hxas : getKey? (degradedProcessed (R := R) s) "xas" = some 0 := by
    unfold degradedProcessed
    rw [getKey?_setKey_of_ne _ (by decide), getKey?_setKey_self]
  have hxmcd : getKey? (degradedProcessed (R := R) s) "xmcd" = some 0 := by
    unfold degradedProcessed
    rw [getKey?_setKey_self]
  have hp1 : tupleEntry (degradedProcessed (R := R) s) s.positioner1 =
      .ok (s.positioner1.map fun _ => (0 : R)) := by
    cases h1 : s.positioner1 with
    | none => rfl
    | some p =>
      have hs : (getKey? (degradedProcessed (R := R) s) p).isSome := by
        unfold degradedProcessed
        apply isSome_getKey?_setKey
        apply isSome_getKey?_setKey
        apply isSome_getKey?_posSet
        rw [h1]
        exact isSome_getKey?_posSet_self _ _ _
      have hv := getKey?_zero _ p hzero hs
      simp [tupleEntry, hv]
  have hp2 : tupleEntry (degradedProcessed (R := R) s) s.positioner2 =
      .ok (s.positioner2.map fun _ => (0 : R)) := by
    cases h2 : s.positioner2 with
    | none => rfl
    | some q =>
      have hs : (getKey? (degradedProcessed (R := R) s) q).isSome := by
        unfold degradedProcessed
        apply isSome_getKey?_setKey
        apply isSome_getKey?_setKey
        rw [h2]
        exact isSome_getKey?_posSet_self _ _ _
      have hv := getKey?_zero _ q hzero hs
      simp [tupleEntry, hv]
  have hout : dichroOut (degradedProcessed (R := R) s) s =
      .ok (s.positioner1.map fun _ => (0 : R),
           s.positioner2.map fun _ => (0 : R), 0, 0) :=
    dichroOut_eval _ _ _ _ _ _ hp1 hp2 hxas hxmcd
  simp only [process_xmcd]
  rw [if_pos hall, if_neg hm, degradedDict_get_keys, hout]

theorem fullChunks_of_neg {α : Type} (n : Nat) (l : List α)
    (h : ¬ (n ≠ 0 ∧ n ≤ l.length)) : fullChunks n l = [] := by
  rw [fullChunks, dif_neg h]

theorem fullChunks_of_pos {α : Type} (n : Nat) (l : List α)
    (h : n ≠ 0 ∧ n ≤ l.length) :
    fullChunks n l = l.take n :: fullChunks n (l.drop n) := by
  rw [fullChunks, dif_pos h]

theorem fullRem_of_neg {α : Type} (n : Nat) (l : List α)
    (h : ¬ (n ≠ 0 ∧ n ≤ l.length)) : fullRem n l = l := by
  rw [fullRem, dif_neg h]

theorem fullRem_of_pos {α : Type} (n : Nat) (l : List α)
    (h : n ≠ 0 ∧ n ≤ l.length) : fullRem n l = fullRem n (l.drop n) := by
  rw [fullRem, dif_pos h]

theorem fullChunks_length_aux {α : Type} (n : Nat) :
    ∀ (k : Nat) (l : List α), l.length ≤ k →
      (fullChunks n l).length = l.length / n := by
  intro k
  induction k with
  | zero =>
    intro l hl
    have h0 : l.length = 0 := Nat.le_zero.1 hl
    rw [fullChunks_of_neg n l (by omega), h0]
    simp
  | succ k ih =>
    intro l hl
    by_cases hg : n ≠ 0 ∧ n ≤ l.length
    · rw [fullChunks_of_pos n l hg]
      simp only [List.length_cons]
      rw [ih (l.drop n) (by simp only [List.length_drop]; omega)]
      rw [List.length_drop]
      obtain ⟨h1, h2⟩ := hg
      rw [Nat.div_eq_sub_div (Nat.pos_of_ne_zero h1) h2]
    · rw [fullChunks_of_neg n l hg]
      simp only [List.length_nil]
      symm
      rcases not_and_or.1 hg with h | h
      · rw [not_not.1 h]
        exact Nat.div_zero _
      · exact Nat.div_eq_of_lt (Nat.lt_of_not_le h)

theorem fullChunks_length {α : Type} (n : Nat) (l : List α) :
    (fullChunks n l).length = l.length / n :=
  fullChunks_length_aux n l.length l le_rfl

theorem fullRem_length_aux {α : Type} (n : Nat) :
    ∀ (k : Nat) (l : List α), l.length ≤ k →
      (fullRem n l).length = l.length % n := by
  intro k
  induction k with
  | zero =>
    intro l hl
    have h0 : l.length = 0 := Nat.le_zero.1 hl
    rw [fullRem_of_neg n l (by omega), h0]
    simp
  | succ k ih =>
    intro l hl
    by_cases hg : n ≠ 0 ∧ n ≤ l.length
    · rw [fullRem_of_pos n l hg]
      rw [ih (l.drop n) (by simp only [List.length_drop]; omega)]
      rw [List.length_drop]
      exact (Nat.mod_eq_sub_mod hg.2).symm
    · rw [fullRem_of_neg n l hg]
      symm
      rcases not_and_or.1 hg with h | h
      · rw [not_not.1 h]
        exact Nat.mod_zero _
      · exact Nat.mod_eq_of_lt (Nat.lt_of_not_le h)

theorem fullRem_length {α : Type} (n : Nat) (l : List α) :
    (fullRem n l).length = l.length % n :=
  fullRem_length_aux n l.length l le_rfl

theorem process_xmcd_ok {R : Type} [Field R] (rlog : R → R)
    (rd : String → Descriptor) (s : Settings R) (e0 : RawEvent R)
    (rest : List (RawEvent R))
    (hdesc : ∀ e ∈ e0 :: rest, e.descriptor = e0.descriptor) :
    ∃ r, process_xmcd rlog rd s.get_keys s (e0 :: rest) = .ok r := by
  by_cases hm : ((s.get_keys.map Prod.snd).all
      fun key => ((rd e0.descriptor).data_keys).contains key) = true
  · obtain ⟨p1, p2, h, -⟩ := process_xmcd_match rlog rd s e0 rest hdesc hm
    exact ⟨_, h⟩
  · exact ⟨_, process_xmcd_mismatch rlog rd s e0 rest hdesc hm⟩

theorem start_runState {R : Type} (st : DSState R) :
    DichroStream.start st = runState st.settings [] := rfl

theorem event_step_no_fire {R : Type} [Field R] (rlog : R → R)
    (rd : String → Descriptor) (s : Settings R) (b : List (RawEvent R))
    (e : RawEvent R) (hprim : (rd e.descriptor).name = "primary")
    (hlt : b.length + 1 ≠ s.pattern.length) :
    DichroStream.event rlog rd (runState s b) e =
      .ok (runState s (b ++ [e]), []) := by
  simp [DichroStream.event, runState, hprim, hlt]

theorem event_step_fire {R : Type} [Field R] (rlog : R → R)
    (rd : String → Descriptor) (s : Settings R) (b : List (RawEvent R))
    (e : RawEvent R) (d0 : String)
    (hprim : (rd e.descriptor).name = "primary")
    (hfill : (b ++ [e]).length = s.pattern.length)
    (hdesc : ∀ x ∈ b ++ [e], x.descriptor = d0) :
    DichroStream.event rlog rd (runState s b) e =
      .ok (runState s [], [windowReduce rlog rd s.get_keys s (b ++ [e])]) := by
  rcases hbe : b ++ [e] with _ | ⟨e0, rest⟩
  · exact absurd hbe (by simp)
  · have hdesc' : ∀ x ∈ e0 :: rest, x.descriptor = e0.descriptor := by
      intro x hx
      rw [hdesc x (hbe ▸ hx), ← hdesc e0 (hbe ▸ List.mem_cons_self e0 rest)]
    obtain ⟨r, hr⟩ := process_xmcd_ok rlog rd s e0 rest hdesc'
    rw [hbe] at hfill
    simp [DichroStream.event, runState, hprim, hbe, hfill, hr, windowReduce]

theorem runEvents_append {R : Type} [Field R] (rlog : R → R)
    (rd : String → Descriptor) (l1 l2 : List (RawEvent R)) (st : DSState R) :
    runEvents rlog rd st (l1 ++ l2) =
      match runEvents rlog rd st l1 with
      | .error msg => .error msg
      | .ok (st1, o1) =>
        match runEvents rlog rd st1 l2 with
        | .error msg => .error msg
        | .ok (st2, o2) => .ok (st2, o1 ++ o2) := by
  induction l1 generalizing st with
  | nil =>
    simp only [List.nil_append, runEvents]
    cases h2 : runEvents rlog rd st l2 with
    | error msg => rfl
    | ok p => rfl
  | cons e t ih =>
    simp only [List.cons_append, runEvents]
    cases hev : DichroStream.event rlog rd st e with
    | error msg => rfl
    | ok p =>
      rcases p with ⟨st1, o1⟩
      simp only [List.append_eq]
      simp only [ih]
      cases h1 : runEvents rlog rd st1 t with
      | error msg => rfl
      | ok q =>
        rcases q with ⟨st2, o2⟩
        cases h2 : runEvents rlog rd st2 l2 with
        | error msg => simp [h2]
        | ok w =>
          rcases w with ⟨st3, o3⟩
          simp [h2, List.append_assoc]

theorem runEvents_cons {R : Type} [Field R] (rlog : R → R)
    (rd : String → Descriptor) (st : DSState R) (e : RawEvent R)
    (rest : List (RawEvent R)) (st1 : DSState R) (o1 : List (Reduced R))
    (hev : DichroStream.event rlog rd st e = .ok (st1, o1)) :
    runEvents rlog rd st (e :: rest) =
      match runEvents rlog rd st1 rest with
      | .error msg => .error msg
      | .ok (st2, o2) => .ok (st2, o1 ++ o2) := by
  simp only [runEvents, hev]

theorem runEvents_fill {R : Type} [Field R] (rlog : R → R)
    (rd : String → Descriptor) (s : Settings R) (d0 : String) :
    ∀ (l b : List (RawEvent R)), l ≠ [] →
      (b ++ l).length = s.pattern.length →
      (∀ e ∈ l, (rd e.descriptor).name = "primary") →
      (∀ e ∈ b ++ l, e.descriptor = d0) →
      runEvents rlog rd (runState s b) l =
        .ok (runState s [], [windowReduce rlog rd s.get_keys s (b ++ l)]) := by
  intro l
  induction l with
  | nil => intro b hne; exact absurd rfl hne
  | cons e t ih =>
    intro b _ hlen hprim hdesc
    cases t with
    | nil =>
      have hstep := event_step_fire rlog rd s b e d0
        (hprim e (List.mem_cons_self e [])) hlen hdesc
      rw [runEvents_cons rlog rd _ _ _ _ _ hstep]
      simp [runEvents]
    | cons e2 t2 =>
      have hne2 : b.length + 1 ≠ s.pattern.length := by
        simp only [List.length_append, List.length_cons] at hlen
        omega
      have hstep := event_step_no_fire rlog rd s b e
        (hprim e (List.mem_cons_self e (e2 :: t2))) hne2
      have hrec := ih (b ++ [e]) (by simp)
        (by simp only [List.append_assoc, List.singleton_append] at hlen ⊢; exact hlen)
        (fun x hx => hprim x (List.mem_cons_of_mem _ hx))
        (by intro x hx
            exact hdesc x (by simpa [List.append_assoc] using hx))
      rw [runEvents_cons rlog rd _ _ _ _ _ hstep, hrec]
      simp [List.append_assoc]

theorem runEvents_no_fire {R : Type} [Field R] (rlog : R → R)
    (rd : String → Descriptor) (s : Settings R) :
    ∀ (l b : List (RawEvent R)),
      ((b ++ l).length < s.pattern.length ∨ s.pattern.length = 0) →
      (∀ e ∈ l, (rd e.descriptor).name = "primary") →
      runEvents rlog rd (runState s b) l = .ok (runState s (b ++ l), []) := by
  intro l
  induction l with
  | nil =>
    intro b _ _
    simp [runEvents]
  | cons e t ih =>
    intro b hb hprim
    have hne : b.length + 1 ≠ s.pattern.length := by
      rcases hb with h | h
      · simp only [List.length_append, List.length_cons] at h; omega
      · omega
    have hstep := event_step_no_fire rlog rd s b e
      (hprim e (List.mem_cons_self e t)) hne
    have hrec := ih (b ++ [e])
      (by rcases hb with h | h
          · left
            simp only [List.length_append, List.length_cons,
              List.length_nil] at h ⊢
            omega
          · right; exact h)
      (fun x hx => hprim x (List.mem_cons_of_mem _ hx))
    rw [runEvents_cons rlog rd _ _ _ _ _ hstep, hrec]
    simp [List.append_assoc]

theorem runEvents_run {R : Type} [Field R] (rlog : R → R)
    (rd : String → Descriptor) (s : Settings R) (d0 : String) :
    ∀ (k : Nat) (evs : List (RawEvent R)), evs.length ≤ k →
      (∀ e ∈ evs, (rd e.descriptor).name = "primary") →
      (∀ e ∈ evs, e.descriptor = d0) →
      runEvents rlog rd (runState s []) evs =
        .ok (runState s (fullRem s.pattern.length evs),
             (fullChunks s.pattern.length evs).map
               (windowReduce rlog rd s.get_keys s)) := by
  intro k
  induction k with
  | zero =>
    intro evs hk _ _
    have h0 : evs = [] := List.length_eq_zero.1 (Nat.le_zero.1 hk)
    subst h0
    rw [fullChunks_of_neg _ _ (by simp), fullRem_of_neg _ _ (by simp)]
    simp [runEvents]
  | succ k ih =>
    intro evs hk hprim hdesc
    by_cases hg : s.pattern.length ≠ 0 ∧ s.pattern.length ≤ evs.length
    · obtain ⟨hn0, hle⟩ := hg
      have hsplit : evs.take s.pattern.length ++ evs.drop s.pattern.length = evs :=
        List.take_append_drop _ _
      have htake_len : (evs.take s.pattern.length).length = s.pattern.length := by
        rw [List.length_take, Nat.min_eq_left hle]
      have htake_ne : evs.take s.pattern.length ≠ [] := by
        intro h0
        rw [h0] at htake_len
        exact hn0 (by simpa using htake_len.symm)
      have hfill := runEvents_fill rlog rd s d0 (evs.take s.pattern.length) []
        htake_ne (by simpa using htake_len)
        (fun e he => hprim e (List.take_subset _ _ he))
        (by intro e he
            exact hdesc e (List.take_subset _ _ (by simpa using he)))
      rw [List.nil_append] at hfill
      have hdrop := ih (evs.drop s.pattern.length)
        (by simp only [List.length_drop]; omega)
        (fun e he => hprim e (List.drop_subset _ _ he))
        (fun e he => hdesc e (List.drop_subset _ _ he))
      rw [fullChunks_of_pos _ _ ⟨hn0, hle⟩, fullRem_of_pos _ _ ⟨hn0, hle⟩]
      conv_lhs => rw [← hsplit]
      rw [runEvents_append, hfill]
      simp only [hdrop]
      simp
    · have hcase : (evs.length < s.pattern.length ∨ s.pattern.length = 0) := by
        rcases not_and_or.1 hg with h | h
        · right; exact not_not.1 h
        · left; exact Nat.lt_of_not_le h
      have hnf := runEvents_no_fire rlog rd s evs [] (by simpa using hcase) hprim
      rw [List.nil_append] at hnf
      rw [hnf, fullChunks_of_neg _ _ hg, fullRem_of_neg _ _ hg]
      simp


theorem degradedProcessed_values_zero {R : Type} [Field R] (s : Settings R) :
    ∀ q ∈ degradedProcessed (R := R) s, q.2 = 0 := by
  unfold degradedProcessed
  apply setKey_zero_values
  apply setKey_zero_values
  apply posSet_zero_values
  apply posSet_zero_values
  simp

theorem degradedProcessed_lookup_p1 {R : Type} [Field R] (s : Settings R)
    (p : String) (h : s.positioner1 = some p) :
    getKey? (degradedProcessed (R := R) s) p = some 0 := by
  apply getKey?_zero _ _ (degradedProcessed_values_zero s)
  unfold degradedProcessed
  apply isSome_getKey?_setKey
  apply isSome_getKey?_setKey
  apply isSome_getKey?_posSet
  rw [h]
  exact isSome_getKey?_posSet_self _ _ _

theorem degradedProcessed_lookup_p2 {R : Type} [Field R] (s : Settings R)
    (p : String) (h : s.positioner2 = some p) :
    getKey? (degradedProcessed (R := R) s) p = some 0 := by
  apply getKey?_zero _ _ (degradedProcessed_values_zero s)
  unfold degradedProcessed
  apply isSome_getKey?_setKey
  apply isSome_getKey?_setKey
  rw [h]
  exact isSome_getKey?_posSet_self _ _ _

theorem mkDevice_callbacks (regs : List (Nat × Option String × Bool)) :
    (mkDevice regs).callbacks = regs.map (fun g => ("acq_done", g.1)) := by
  suffices h : ∀ d : DichroDevice,
      ((regs.foldl (fun d g => d.subscribe g.1 g.2.1 g.2.2) d).callbacks =
        d.callbacks ++ regs.map (fun g => ("acq_done", g.1))) by
    simpa [mkDevice] using h ⟨[]⟩
  induction regs with
  | nil => intro d; simp
  | cons g t ih =>
    intro d
    rw [List.foldl_cons, ih]
    simp [DichroDevice.subscribe, List.append_assoc]

theorem device_put_mkDevice {R : Type} (regs : List (Nat × Option String × Bool))
    (v : Option R × Option R × R × R) :
    (mkDevice regs).put v = regs.map (fun g => (g.1, v)) := by
  simp only [DichroDevice.put, DichroDevice.runSubs, mkDevice_callbacks]
  induction regs with
  | nil => rfl
  | cons g t ih => simp [ih]

/-- C1: for every window of N raw events (N the pattern length) sharing one
descriptor id whose configured channel names all appear in the descriptor
schema, the reducer computes per-event absorption `A[i] = ln(M[i]/D[i])`
when `settings.transmission` holds and `A[i] = D[i]/M[i]` otherwise (M, D
the monitor and detector readings in window order), and emits a Derived
Event with `xas = mean(A)` and `xmcd = mean(A[i] * pattern[i]) * 2`. -/
theorem C1_reduction_formula {R : Type} [Field R] (rlog : R → R)
    (rd : String → Descriptor) (s : Settings R) (cache : List (RawEvent R))
    (e0 : RawEvent R) (rest : List (RawEvent R)) (hc : cache = e0 :: rest)
    (_hN : cache.length = s.pattern.length)
    (hdesc : ∀ e ∈ cache, e.descriptor = e0.descriptor)
    (hmatch : ∀ p ∈ s.get_keys, p.2 ∈ (rd e0.descriptor).data_keys) :
    ∃ r, process_xmcd rlog rd s.get_keys s cache = .ok r ∧
      getKey? r.processed "xas" = some (xasVal rlog s cache) ∧
      getKey? r.processed "xmcd" = some (xmcdVal rlog s cache) ∧
      r.out.2.2.1 = xasVal rlog s cache ∧
      r.out.2.2.2 = xmcdVal rlog s cache := by
  subst hc
  obtain ⟨p1, p2, hok, -, -, -, -⟩ :=
    process_xmcd_match rlog rd s e0 rest hdesc (all_keys_contains hmatch)
  refine ⟨_, hok, ?_, ?_, rfl, rfl⟩
  · unfold matchProcessed
    rw [getKey?_setKey_of_ne _ (by decide), getKey?_setKey_self]
  · unfold matchProcessed
    rw [getKey?_setKey_self]

/-- Witness for C1 at a concrete two-event window over `ℚ`. -/
theorem C1_reduction_formula_witness :
    ∃ r, process_xmcd wLog wRd wS.get_keys wS [wE1, wE1] = .ok r ∧
      getKey? r.processed "xas" = some (xasVal wLog wS [wE1, wE1]) ∧
      getKey? r.processed "xmcd" = some (xmcdVal wLog wS [wE1, wE1]) ∧
      r.out.2.2.1 = xasVal wLog wS [wE1, wE1] ∧
      r.out.2.2.2 = xmcdVal wLog wS [wE1, wE1] :=
  C1_reduction_formula wLog wRd wS [wE1, wE1] wE1 [wE1] rfl rfl
    (by intro e he
        have h : e = wE1 := by simpa using he
        rw [h])
    (by decide)

/-- C2 counterexample: with window size 2, delivering two primary-stream
events with distinct descriptor ids makes the run raise an error and emit
no Derived Event, although the claim promises exactly floor(2/2) = 1. -/
theorem C2_counterexample :
    runEvents wLog wRd (DichroStream.start wIdle) [cE1, cE2] =
      .error "The events in this bundle are from different configurations!" ∧
    (∀ st outs, runEvents wLog wRd (DichroStream.start wIdle) [cE1, cE2] ≠
      .ok (st, outs)) ∧
    [cE1, cE2].length / wIdle.settings.pattern.length = 1 := by
  have h : runEvents wLog wRd (DichroStream.start wIdle) [cE1, cE2] =
      .error "The events in this bundle are from different configurations!" := by
    rfl
  exact ⟨h, fun st outs hc => by rw [h] at hc; exact Except.noConfusion hc, rfl⟩

/-- C2 (amended): for every run with window size N = len(settings.pattern)
and every sequence of k primary-stream raw events delivered via on_event
that all carry one common descriptor id (otherwise a window raises, see
C3), exactly floor(k/N) Derived Events are emitted, formed from the
contiguous non-overlapping groups of N events in arrival order, and the
trailing k mod N buffered events produce no output: they are dropped at
run stop. -/
theorem C2_amended_window_completeness {R : Type} [Field R] (rlog : R → R)
    (rd : String → Descriptor) (st0 : DSState R) (evs : List (RawEvent R))
    (d0 : String)
    (hprim : ∀ e ∈ evs, (rd e.descriptor).name = "primary")
    (hdesc : ∀ e ∈ evs, e.descriptor = d0) :
    ∃ stf,
      runEvents rlog rd (DichroStream.start st0) evs =
        .ok (stf, (fullChunks st0.settings.pattern.length evs).map
              (windowReduce rlog rd st0.settings.get_keys st0.settings)) ∧
      ((fullChunks st0.settings.pattern.length evs).map
        (windowReduce rlog rd st0.settings.get_keys st0.settings)).length =
          evs.length / st0.settings.pattern.length ∧
      stf.buffer = fullRem st0.settings.pattern.length evs ∧
      stf.buffer.length = evs.length % st0.settings.pattern.length ∧
      (DichroStream.stop stf).buffer = [] := by
  refine ⟨runState st0.settings (fullRem st0.settings.pattern.length evs),
    ?_, ?_, rfl, ?_, rfl⟩
  · rw [start_runState]
    exact runEvents_run rlog rd st0.settings d0 evs.length evs le_rfl hprim hdesc
  · rw [List.length_map, fullChunks_length]
  · exact fullRem_length _ _

/-- Witness for the amended C2: five same-descriptor primary events with
window size 2 give two full windows and one trailing buffered event. -/
theorem C2_amended_window_completeness_witness :
    ∃ stf,
      runEvents wLog wRd (DichroStream.start wIdle) [wE1, wE1, wE1, wE1, wE1] =
        .ok (stf, (fullChunks wIdle.settings.pattern.length
              [wE1, wE1, wE1, wE1, wE1]).map
              (windowReduce wLog wRd wIdle.settings.get_keys wIdle.settings)) ∧
      ((fullChunks wIdle.settings.pattern.length [wE1, wE1, wE1, wE1, wE1]).map
        (windowReduce wLog wRd wIdle.settings.get_keys wIdle.settings)).length =
          [wE1, wE1, wE1, wE1, wE1].length / wIdle.settings.pattern.length ∧
      stf.buffer = fullRem wIdle.settings.pattern.length [wE1, wE1, wE1, wE1, wE1] ∧
      stf.buffer.length =
        [wE1, wE1, wE1, wE1, wE1].length % wIdle.settings.pattern.length ∧
      (DichroStream.stop stf).buffer = [] :=
  C2_amended_window_completeness wLog wRd wIdle [wE1, wE1, wE1, wE1, wE1] "d1"
    (fun e _ => rfl)
    (by intro e he
        have h : e = wE1 := by simpa using he
        rw [h]
        rfl)

/-- C3: a window holding events with two distinct descriptor ids makes the
reduce operation raise an error (propagated to the caller) and produce no
Derived Event: the event step that would complete such a window returns
the error, so nothing is published and nothing is forwarded. -/
theorem C3_mixed_descriptor_fatal {R : Type} [Field R] (rlog : R → R)
    (rd : String → Descriptor) (dk : List (String × String)) (s : Settings R)
    (cache : List (RawEvent R)) (a b : RawEvent R)
    (ha : a ∈ cache) (hb : b ∈ cache) (hab : a.descriptor ≠ b.descriptor) :
    ∃ msg, process_xmcd rlog rd dk s cache = .error msg ∧
      ∀ (st : DSState R) (e : RawEvent R),
        st.buffer ++ [e] = cache → st.processor = some cache.length →
        st.data_keys = some dk → st.settings = s →
        (rd e.descriptor).name = "primary" →
        DichroStream.event rlog rd st e = .error msg := by
  rcases cache with _ | ⟨e0, rest⟩
  · exact absurd ha (List.not_mem_nil a)
  · have hfail : ¬ (((e0 :: rest).all fun evt => evt.descriptor == e0.descriptor) = true) := by
      intro hall
      rw [List.all_eq_true] at hall
      have h1 := beq_iff_eq.1 (hall a ha)
      have h2 := beq_iff_eq.1 (hall b hb)
      exact hab (h1.trans h2.symm)
    have herr : process_xmcd rlog rd dk s (e0 :: rest) =
        .error "The events in this bundle are from different configurations!" := by
      simp only [process_xmcd]
      rw [if_neg hfail]
    refine ⟨_, herr, ?_⟩
    intro st e hbe hproc hdk hset hprim
    simp [DichroStream.event, hprim, hproc, hdk, hbe, hset, herr]

/-- Witness for C3 at a concrete two-event mixed-descriptor window. -/
theorem C3_mixed_descriptor_fatal_witness :
    ∃ msg, process_xmcd wLog wRd wS.get_keys wS [cE1, cE2] = .error msg ∧
      ∀ (st : DSState ℚ) (e : RawEvent ℚ),
        st.buffer ++ [e] = [cE1, cE2] → st.processor = some [cE1, cE2].length →
        st.data_keys = some wS.get_keys → st.settings = wS →
        (wRd e.descriptor).name = "primary" →
        DichroStream.event wLog wRd st e = .error msg :=
  C3_mixed_descriptor_fatal wLog wRd wS.get_keys wS [cE1, cE2] cE1 cE2
    (List.mem_cons_self cE1 [cE2])
    (List.mem_cons_of_mem cE1 (List.mem_cons_self cE2 []))
    (by decide)

/-- C4: for every window whose descriptor schema misses at least one
configured channel name, the reducer raises no error and emits a degraded
Derived Event: every configured positioner field is 0, `xas = 0` and
`xmcd = 0`, regardless of the input readings. -/
theorem C4_degraded_zero_output {R : Type} [Field R] (rlog : R → R)
    (rd : String → Descriptor) (s : Settings R) (cache : List (RawEvent R))
    (e0 : RawEvent R) (rest : List (RawEvent R)) (hc : cache = e0 :: rest)
    (hdesc : ∀ e ∈ cache, e.descriptor = e0.descriptor)
    (hmiss : ∃ p ∈ s.get_keys, p.2 ∉ (rd e0.descriptor).data_keys) :
    ∃ r, process_xmcd rlog rd s.get_keys s cache = .ok r ∧
      r.out.2.2.1 = 0 ∧ r.out.2.2.2 = 0 ∧
      r.out.1 = (s.positioner1.map fun _ => (0 : R)) ∧
      r.out.2.1 = (s.positioner2.map fun _ => (0 : R)) ∧
      getKey? r.processed "xas" = some 0 ∧
      getKey? r.processed "xmcd" = some 0 ∧
      (∀ p, s.positioner1 = some p → getKey? r.processed p = some 0) ∧
      (∀ p, s.positioner2 = some p → getKey? r.processed p = some 0) := by
  subst hc
  have hm : ¬ ((s.get_keys.map Prod.snd).all
      fun key => ((rd e0.descriptor).data_keys).contains key) = true := by
    obtain ⟨p, hp, hnot⟩ := hmiss
    intro hall
    rw [List.all_eq_true] at hall
    have hc := hall p.2 (List.mem_map.2 ⟨p, hp, rfl⟩)
    exact hnot (List.mem_of_elem_eq_true hc)
  have hred := process_xmcd_mismatch rlog rd s e0 rest hdesc hm
  refine ⟨_, hred, rfl, rfl, rfl, rfl, ?_, ?_, ?_, ?_⟩
  · unfold degradedProcessed
    rw [getKey?_setKey_of_ne _ (by decide), getKey?_setKey_self]
  · unfold degradedProcessed
    rw [getKey?_setKey_self]
  · exact fun p hp => degradedProcessed_lookup_p1 s p hp
  · exact fun p hp => degradedProcessed_lookup_p2 s p hp

/-- Witness for C4: the monitor channel of `wS4` is absent from the
schema, and the emitted Derived Event is all zeroes. -/
theorem C4_degraded_zero_output_witness :
    ∃ r, process_xmcd wLog wRd wS4.get_keys wS4 [wE1, wE1] = .ok r ∧
      r.out.2.2.1 = 0 ∧ r.out.2.2.2 = 0 ∧
      r.out.1 = (wS4.positioner1.map fun _ => (0 : ℚ)) ∧
      r.out.2.1 = (wS4.positioner2.map fun _ => (0 : ℚ)) ∧
      getKey? r.processed "xas" = some 0 ∧
      getKey? r.processed "xmcd" = some 0 ∧
      (∀ p, wS4.positioner1 = some p → getKey? r.processed p = some 0) ∧
      (∀ p, wS4.positioner2 = some p → getKey? r.processed p = some 0) :=
  C4_degraded_zero_output wLog wRd wS4 [wE1, wE1] wE1 [wE1] rfl
    (by intro e he
        have h : e = wE1 := by simpa using he
        rw [h])
    (by decide)

/-- C5: stopping a run discards the event buffer, clears the captured
channel map and the partition node holding the captured window size,
clears both positioner references in Settings, and a subsequent run start
begins with an empty buffer; two stopped streams agreeing on the
persistent settings fields restart into identical states, so the new
window count is independent of prior leftover state. -/
theorem C5_stop_resets {R : Type} (st t : DSState R) :
    (DichroStream.stop st).buffer = [] ∧
    (DichroStream.stop st).data_keys = none ∧
    (DichroStream.stop st).processor = none ∧
    (DichroStream.stop st).settings.positioner1 = none ∧
    (DichroStream.stop st).settings.positioner2 = none ∧
    (DichroStream.start (DichroStream.stop st)).buffer = [] ∧
    (st.settings.monitor = t.settings.monitor →
     st.settings.detector = t.settings.detector →
     st.settings.transmission = t.settings.transmission →
     st.settings.pattern = t.settings.pattern →
     DichroStream.start (DichroStream.stop st) =
       DichroStream.start (DichroStream.stop t)) := by
  refine ⟨rfl, rfl, rfl, rfl, rfl, rfl, ?_⟩
  intro h1 h2 h3 h4
  have hs : (DichroStream.stop st).settings = (DichroStream.stop t).settings := by
    apply Settings.ext <;> simp [DichroStream.stop, h1, h2, h3, h4]
  rw [start_runState, start_runState, hs]

/-- Witness for C5 at two concrete states agreeing on the persistent
settings fields. -/
theorem C5_stop_resets_witness :
    (DichroStream.stop wIdle).buffer = ([] : List (RawEvent ℚ)) ∧
    DichroStream.start (DichroStream.stop wIdle) =
      DichroStream.start (DichroStream.stop wIdle2) :=
  ⟨(C5_stop_resets wIdle wIdle2).1,
   (C5_stop_resets wIdle wIdle2).2.2.2.2.2.2 rfl rfl rfl rfl⟩

/-- C6: an event whose descriptor stream name is not `primary` is ignored
by the event hook: nothing is buffered, no window forms, and the stream
state is returned unchanged. -/
theorem C6_nonprimary_ignored {R : Type} [Field R] (rlog : R → R)
    (rd : String → Descriptor) (st : DSState R) (e : RawEvent R)
    (h : (rd e.descriptor).name ≠ "primary") :
    DichroStream.event rlog rd st e = .ok (st, []) := by
  simp [DichroStream.event, h]

/-- Witness for C6 with an auxiliary baseline-stream event. -/
theorem C6_nonprimary_ignored_witness :
    DichroStream.event wLog wRdMix wIdle wEbase = .ok (wIdle, []) :=
  C6_nonprimary_ignored wLog wRdMix wIdle wEbase (by decide)

/-- C7: when `settings.positioner2` is absent, the published 4-tuple of a
matching window carries NaN in the positioner2 slot, while `xas` and
`xmcd` equal the values obtained with a positioner2 configured: the
absorption computation does not depend on positioner fields. -/
theorem C7_absent_positioner2 {R : Type} [Field R] (rlog : R → R)
    (rd : String → Descriptor) (s : Settings R) (q : String)
    (cache : List (RawEvent R)) (e0 : RawEvent R) (rest : List (RawEvent R))
    (hc : cache = e0 :: rest)
    (hdesc : ∀ e ∈ cache, e.descriptor = e0.descriptor)
    (hp2 : s.positioner2 = none)
    (hmatch2 : ∀ p ∈ (Settings.get_keys { s with positioner2 := some q }),
      p.2 ∈ (rd e0.descriptor).data_keys) :
    ∃ r r2,
      process_xmcd rlog rd s.get_keys s cache = .ok r ∧
      process_xmcd rlog rd (Settings.get_keys { s with positioner2 := some q })
        { s with positioner2 := some q } cache = .ok r2 ∧
      r.out.2.1 = none ∧
      r.out.2.2.1 = r2.out.2.2.1 ∧
      r.out.2.2.2 = r2.out.2.2.2 := by
  subst hc
  have hsub : ∀ p ∈ s.get_keys, p.2 ∈ (rd e0.descriptor).data_keys := by
    intro p hp
    apply hmatch2
    cases h1 : s.positioner1 <;>
      simp [Settings.get_keys, hp2, h1] at hp ⊢ <;> tauto
  obtain ⟨p1, p2, hok, -, hn2, -, -⟩ :=
    process_xmcd_match rlog rd s e0 rest hdesc (all_keys_contains hsub)
  obtain ⟨q1, q2, hok2, -, -, -, -⟩ :=
    process_xmcd_match rlog rd { s with positioner2 := some q } e0 rest hdesc
      (all_keys_contains hmatch2)
  exact ⟨_, _, hok, hok2, hn2 hp2, rfl, rfl⟩

/-- Witness for C7: `wS` has no positioner2; configuring `theta` leaves
`xas` and `xmcd` unchanged. -/
theorem C7_absent_positioner2_witness :
    ∃ r r2,
      process_xmcd wLog wRd wS.get_keys wS [wE1, wE1] = .ok r ∧
      process_xmcd wLog wRd
        (Settings.get_keys { wS with positioner2 := some "theta" })
        { wS with positioner2 := some "theta" } [wE1, wE1] = .ok r2 ∧
      r.out.2.1 = none ∧
      r.out.2.2.1 = r2.out.2.2.1 ∧
      r.out.2.2.2 = r2.out.2.2.2 :=
  C7_absent_positioner2 wLog wRd wS "theta" [wE1, wE1] wE1 [wE1] rfl
    (by intro e he
        have h : e = wE1 := by simpa using he
        rw [h])
    rfl
    (by decide)

/-- C8: completing a window publishes exactly one Derived Event: the event
step returns the cleared-buffer state together with the single reduced
record whose `out` field is the (positioner1, positioner2, xas, xmcd)
4-tuple put on the sink, and a put on the sink notifies every registered
observer exactly once, in registration order. -/
theorem C8_publish_once_ordered {R : Type} [Field R] (rlog : R → R)
    (rd : String → Descriptor) (st : DSState R) (e : RawEvent R) (n : Nat)
    (d0 : String)
    (hproc : st.processor = some n)
    (hdk : st.data_keys = some st.settings.get_keys)
    (hprim : (rd e.descriptor).name = "primary")
    (hfill : (st.buffer ++ [e]).length = n)
    (hdesc : ∀ x ∈ st.buffer ++ [e], x.descriptor = d0) :
    ∃ r, DichroStream.event rlog rd st e = .ok ({ st with buffer := [] }, [r]) ∧
      ∀ (regs : List (Nat × Option String × Bool)),
        (mkDevice regs).put r.out = regs.map (fun g => (g.1, r.out)) := by
  rcases hbe : st.buffer ++ [e] with _ | ⟨e0, rest⟩
  · exact absurd hbe (by simp)
  · have hdesc' : ∀ x ∈ e0 :: rest, x.descriptor = e0.descriptor := by
      intro x hx
      rw [hdesc x (hbe ▸ hx), ← hdesc e0 (hbe ▸ List.mem_cons_self e0 rest)]
    obtain ⟨r, hr⟩ := process_xmcd_ok rlog rd st.settings e0 rest hdesc'
    rw [hbe] at hfill
    refine ⟨r, ?_, fun regs => device_put_mkDevice regs r.out⟩
    simp [DichroStream.event, hprim, hproc, hdk, hbe, hfill, hr]

/-- Witness for C8 at a concrete window completion. -/
theorem C8_publish_once_ordered_witness :
    ∃ r, DichroStream.event wLog wRd (runState wS [wE1]) wE1 =
        .ok ({ runState wS [wE1] with buffer := [] }, [r]) ∧
      ∀ (regs : List (Nat × Option String × Bool)),
        (mkDevice regs).put r.out = regs.map (fun g => (g.1, r.out)) :=
  C8_publish_once_ordered wLog wRd (runState wS [wE1]) wE1 2 "d1" rfl rfl rfl
    rfl
    (by intro x hx
        have h : x = wE1 := by simpa [runState] using hx
        rw [h]
        rfl)

/-- C9: stopping a run leaves the Settings fields monitor, detector,
transmission and pattern unchanged; only the two positioner references of
Settings are modified (both cleared to None). -/
theorem C9_stop_settings_frame {R : Type} (st : DSState R) :
    (DichroStream.stop st).settings.monitor = st.settings.monitor ∧
    (DichroStream.stop st).settings.detector = st.settings.detector ∧
    (DichroStream.stop st).settings.transmission = st.settings.transmission ∧
    (DichroStream.stop st).settings.pattern = st.settings.pattern ∧
    (DichroStream.stop st).settings.positioner1 = none ∧
    (DichroStream.stop st).settings.positioner2 = none :=
  ⟨rfl, rfl, rfl, rfl, rfl, rfl⟩

/-- C10: the sink device registers every subscribed callback under the
`acq_done` event type, ignoring the caller-supplied event type, so a put
notifies exactly the callbacks registered via subscribe, in order. -/
theorem C10_subscribe_ignores_event_type {R : Type} (d : DichroDevice)
    (cb : Nat) (et : Option String) (rn : Bool) :
    (d.subscribe cb et rn).callbacks = d.callbacks ++ [("acq_done", cb)] ∧
    ∀ (regs : List (Nat × Option String × Bool)) (v : Option R × Option R × R × R),
      (mkDevice regs).put v = regs.map (fun g => (g.1, v)) :=
  ⟨rfl, fun regs v => device_put_mkDevice regs v⟩

end DichroModel
